import Mathlib

/-!
Verification of the defunc calibration utilities.

The De:code array (a 2-D array over time samples and channels, carrying
per-sample coordinates `time`, `scantype`, `scanid`) is modelled as a list
of rows, one per time sample; each row holds its coordinate values and the
per-channel data values (rationals, idealizing floats).  The functions
`reallocate_scanid`, `indexby`, `recompose_darray` (calibration.py), the
wrappers `apply_each_scanid` / `apply_each_onref` and `normalize` /
`denormalize` (utils.py), and `_calculate_Ton` (funcs.py) are translated
below; assertion failures and Python `IndexError`s become `Except.error`.
-/

namespace Defunc

/-- One time sample of a De:code array: its time coordinate (seconds, as an
integer timestamp), scan-type coordinate, scan-ID coordinate and the vector
of per-channel power values. -/
structure Row where
  time : Int
  scantype : Nat
  scanid : Nat
  vals : List ℚ
deriving DecidableEq

/-- Scan-ID coordinate sequence of an array. -/
def scanids (arr : List Row) : List Nat := arr.map (fun row => row.scanid)

/-- Scan-type coordinate sequence of an array. -/
def scantypes (arr : List Row) : List Nat := arr.map (fun row => row.scantype)

/-- Boolean-mask selection `array[mask]` (xarray indexing by a boolean
DataArray along the sample axis). -/
def select {α : Type} (l : List α) (mask : List Bool) : List α :=
  ((l.zip mask).filter (fun p => p.2)).map (fun p => p.1)

/-- calibration.py `indexby`: boolean index of the array coordinate matched
by any of the items (fold of `|=` over the items, starting from all-False).
The selected coordinate defaults to the scan type. -/
def indexby (arr : List Row) (items : List Nat)
    (coord : Row → Nat := fun row => row.scantype) : List Bool :=
  arr.map (fun row => items.foldl (fun acc it => acc || decide (coord row = it)) false)

/-- The boundary condition between two adjacent samples in
`reallocate_scanid`: scan types differ, or (when `t_divide` is given) the
absolute time difference exceeds `t_divide` (`np.abs(np.diff(time)) > t_delta`). -/
def pairCond (td : Option Int) (prev cur : Row) : Bool :=
  decide (cur.scantype ≠ prev.scantype) ||
    (match td with
     | none => false
     | some t => decide (t < |cur.time - prev.time|))

/-- The `cond` vector of `reallocate_scanid`:
`np.hstack([False, boundary conditions of adjacent pairs])`. -/
def condList (td : Option Int) : List Row → List Bool
  | [] => []
  | r :: rest => false :: List.zipWith (pairCond td) (r :: rest) rest

/-- `np.cumsum` of a boolean vector (with a running accumulator). -/
def cumsumBAux (acc : Nat) : List Bool → List Nat
  | [] => []
  | b :: rest =>
      (acc + (if b then 1 else 0)) :: cumsumBAux (acc + (if b then 1 else 0)) rest

/-- Overwrite the scan-ID coordinate of an array with a given sequence
(`array.scanid.values = ...` / `Prip.scanid[:] = ...`). -/
def setScanids (arr : List Row) (ids : List Nat) : List Row :=
  List.zipWith (fun row i => {row with scanid := i}) arr ids

/-- calibration.py `reallocate_scanid`: a new group boundary wherever the
scan type changes (or the configured time gap is exceeded); boundaries are
cumulatively summed into the new scan-ID sequence. -/
def reallocate_scanid (arr : List Row) (t_divide : Option Int := none) : List Row :=
  setScanids arr (cumsumBAux 0 (condList t_divide arr))

lemma length_condList (td : Option Int) (arr : List Row) :
    (condList td arr).length = arr.length := by
  cases arr with
  | nil => rfl
  | cons r rest =>
      simp [condList, List.length_zipWith]

lemma length_cumsumBAux (l : List Bool) : ∀ acc, (cumsumBAux acc l).length = l.length := by
  induction l with
  | nil => intro acc; rfl
  | cons b rest ih => intro acc; simp [cumsumBAux, ih]

lemma scanids_setScanids (arr : List Row) (ids : List Nat)
    (h : ids.length = arr.length) : scanids (setScanids arr ids) = ids := by
  induction arr generalizing ids with
  | nil =>
      cases ids with
      | nil => rfl
      | cons i t => simp at h
  | cons r rest ih =>
      cases ids with
      | nil => simp at h
      | cons i t =>
          simp only [List.length_cons, Nat.succ.injEq] at h
          simp [scanids, setScanids] at ih ⊢
          exact ih t h

lemma scantypes_setScanids (arr : List Row) (ids : List Nat)
    (h : ids.length = arr.length) : scantypes (setScanids arr ids) = scantypes arr := by
  induction arr generalizing ids with
  | nil => rfl
  | cons r rest ih =>
      cases ids with
      | nil => simp at h
      | cons i t =>
          simp only [List.length_cons, Nat.succ.injEq] at h
          simp [scantypes, setScanids] at ih ⊢
          exact ih t h

lemma scanids_reallocate (arr : List Row) (td : Option Int) :
    scanids (reallocate_scanid arr td) = cumsumBAux 0 (condList td arr) := by
  apply scanids_setScanids
  rw [length_cumsumBAux, length_condList]

lemma scantypes_reallocate (arr : List Row) (td : Option Int) :
    scantypes (reallocate_scanid arr td) = scantypes arr := by
  apply scantypes_setScanids
  rw [length_cumsumBAux, length_condList]

lemma get?_zipWith {α β γ : Type} (f : α → β → γ) :
    ∀ (as : List α) (bs : List β) (i : Nat) (a : α) (b : β),
      as[i]? = some a → bs[i]? = some b →
      (List.zipWith f as bs)[i]? = some (f a b) := by
  intro as
  induction as with
  | nil => intro bs i a b h; simp at h
  | cons x xs ih =>
      intro bs i a b h1 h2
      cases bs with
      | nil => simp at h2
      | cons y ys =>
          cases i with
          | zero =>
              simp at h1 h2
              simp [List.zipWith, h1, h2]
          | succ j =>
              simp at h1 h2
              simpa [List.zipWith] using ih ys j a b h1 h2

lemma cumsumBAux_head (l : List Bool) (acc : Nat) (b : Bool)
    (h : l[0]? = some b) :
    (cumsumBAux acc l)[0]? = some (acc + if b then 1 else 0) := by
  cases l with
  | nil => simp at h
  | cons x rest =>
      simp at h
      subst h
      simp [cumsumBAux]

lemma cumsumBAux_step (l : List Bool) :
    ∀ (acc i : Nat) (b : Bool) (k : Nat),
      l[i+1]? = some b →
      (cumsumBAux acc l)[i]? = some k →
      (cumsumBAux acc l)[i+1]? = some (k + if b then 1 else 0) := by
  induction l with
  | nil => intro acc i b k h; simp at h
  | cons x rest ih =>
      intro acc i b k hb hk
      cases i with
      | zero =>
          simp [cumsumBAux] at hk
          simp at hb
          simp [cumsumBAux]
          rw [← hk]
          exact cumsumBAux_head rest _ b hb
      | succ j =>
          simp at hb
          simp [cumsumBAux] at hk ⊢
          exact ih _ j b k hb hk

lemma condList_head (td : Option Int) (arr : List Row) (r : Row)
    (h : arr[0]? = some r) : (condList td arr)[0]? = some false := by
  cases arr with
  | nil => simp at h
  | cons x rest => simp [condList]

lemma condList_get (td : Option Int) (arr : List Row) (i : Nat) (r r' : Row)
    (h1 : arr[i]? = some r) (h2 : arr[i+1]? = some r') :
    (condList td arr)[i+1]? = some (pairCond td r r') := by
  cases arr with
  | nil => simp at h1
  | cons x rest =>
      have hrest : rest[i]? = some r' := by simpa using h2
      simp only [condList, List.getElem?_cons_succ]
      exact get?_zipWith (pairCond td) (x :: rest) rest i r r' h1 hrest

/-- C3: `reallocate_scanid` with no `t_divide` assigns a 0-based scan-ID
sequence that starts at 0 and increments by exactly one at each sample whose
scan type differs from its predecessor's, staying constant elsewhere. -/
theorem C3_reallocate_scanid_no_tdivide (arr : List Row) (h : arr ≠ []) :
    (scanids (reallocate_scanid arr none))[0]? = some 0 ∧
    ∀ (i k : Nat) (r r' : Row), arr[i]? = some r → arr[i+1]? = some r' →
      (scanids (reallocate_scanid arr none))[i]? = some k →
      (scanids (reallocate_scanid arr none))[i+1]? =
        some (if r'.scantype = r.scantype then k else k + 1) := by
  rw [scanids_reallocate]
  constructor
  · obtain ⟨r, rest⟩ := List.exists_cons_of_ne_nil h
    obtain ⟨t, rfl⟩ := rest
    have hh : ((r :: t)[0]? : Option Row) = some r := by simp
    have := cumsumBAux_head (condList none (r :: t)) 0 false
      (condList_head none (r :: t) r hh)
    simpa using this
  · intro i k r r' h1 h2 hk
    have hc := condList_get none arr i r r' h1 h2
    have := cumsumBAux_step (condList none arr) 0 i (pairCond none r r') k hc hk
    rw [this]
    have : pairCond none r r' = decide (r'.scantype ≠ r.scantype) := by
      simp [pairCond]
    rw [this]
    by_cases hst : r'.scantype = r.scantype <;> simp [hst]

/-- Concrete instantiation of C3 (scan types [0,0,1,1,0] receive
IDs [0,0,1,1,2]), applying the theorem at a concrete input. -/
theorem C3_reallocate_scanid_no_tdivide_witness :
    (scanids (reallocate_scanid
      [⟨0, 0, 7, []⟩, ⟨1, 0, 7, []⟩, ⟨2, 1, 7, []⟩, ⟨3, 1, 7, []⟩, ⟨4, 0, 7, []⟩]
      none))[0]? = some 0 ∧
    scanids (reallocate_scanid
      [⟨0, 0, 7, []⟩, ⟨1, 0, 7, []⟩, ⟨2, 1, 7, []⟩, ⟨3, 1, 7, []⟩, ⟨4, 0, 7, []⟩]
      none) = [0, 0, 1, 1, 2] := by
  refine ⟨(C3_reallocate_scanid_no_tdivide
    [⟨0, 0, 7, []⟩, ⟨1, 0, 7, []⟩, ⟨2, 1, 7, []⟩, ⟨3, 1, 7, []⟩, ⟨4, 0, 7, []⟩]
    (by decide)).1, by decide⟩

/-- C4 counterexample: two adjacent samples of identical scan type whose
time difference equals `t_divide` exactly (5 ≥ 5) do NOT receive a new
scan-ID boundary: the code requires the gap to strictly exceed `t_divide`. -/
theorem C4_counterexample :
    (⟨5, 0, 0, []⟩ : Row).scantype = (⟨0, 0, 0, []⟩ : Row).scantype ∧
    (5 : Int) ≤ |(⟨5, 0, 0, []⟩ : Row).time - (⟨0, 0, 0, []⟩ : Row).time| ∧
    scanids (reallocate_scanid [⟨0, 0, 0, []⟩, ⟨5, 0, 0, []⟩] (some 5)) = [0, 0] := by
  refine ⟨rfl, by decide, by decide⟩

/-- C4 (amended): between two adjacent samples of identical scan type, a new
scan-ID boundary is placed if and only if the absolute time difference
strictly exceeds `t_divide`; a difference of at most `t_divide` (in
particular strictly below it) never creates a boundary within one scan type. -/
theorem C4_tdivide_strict_boundary (arr : List Row) (td : Int) (i : Nat)
    (r r' : Row) (k : Nat)
    (h1 : arr[i]? = some r) (h2 : arr[i+1]? = some r')
    (hst : r'.scantype = r.scantype)
    (hk : (scanids (reallocate_scanid arr (some td)))[i]? = some k) :
    (scanids (reallocate_scanid arr (some td)))[i+1]? =
      some (if td < |r'.time - r.time| then k + 1 else k) := by
  rw [scanids_reallocate] at hk ⊢
  have hc := condList_get (some td) arr i r r' h1 h2
  have := cumsumBAux_step (condList (some td) arr) 0 i (pairCond (some td) r r') k hc hk
  rw [this]
  have hp : pairCond (some td) r r' = decide (td < |r'.time - r.time|) := by
    simp [pairCond, hst]
  rw [hp]
  by_cases hlt : td < |r'.time - r.time| <;> simp [hlt]

/-- Concrete instantiation of C4 (amended): a gap of 6 with `t_divide = 5`
creates a boundary within one scan type. -/
theorem C4_tdivide_strict_boundary_witness :
    (scanids (reallocate_scanid [⟨0, 0, 0, []⟩, ⟨6, 0, 0, []⟩] (some 5)))[1]? =
      some (if (5 : Int) < |(⟨6, 0, 0, []⟩ : Row).time - (⟨0, 0, 0, []⟩ : Row).time|
            then 0 + 1 else 0) :=
  C4_tdivide_strict_boundary [⟨0, 0, 0, []⟩, ⟨6, 0, 0, []⟩] 5 0
    ⟨0, 0, 0, []⟩ ⟨6, 0, 0, []⟩ 0 (by decide) (by decide) rfl (by decide)

lemma foldl_or_mem (s : Nat) :
    ∀ (items : List Nat) (acc : Bool),
      items.foldl (fun acc it => acc || decide (s = it)) acc =
        (acc || decide (s ∈ items)) := by
  intro items
  induction items with
  | nil => intro acc; simp
  | cons a t ih =>
      intro acc
      rw [List.foldl_cons, ih]
      by_cases h : s = a <;> simp [h, List.mem_cons]

/-- C8: `indexby` returns a boolean mask over the sample axis, true at
exactly the samples whose selected coordinate equals one of the supplied
labels and false elsewhere (so the empty label list yields an all-false
mask and absent labels contribute no matches). -/
theorem C8_indexby_mask (arr : List Row) (items : List Nat) (coord : Row → Nat) :
    (indexby arr items coord).length = arr.length ∧
    ∀ (i : Nat), (indexby arr items coord)[i]? = some true ↔
      ∃ r, arr[i]? = some r ∧ coord r ∈ items := by
  constructor
  · simp [indexby]
  · intro i
    rw [indexby, List.getElem?_map]
    cases harr : arr[i]? with
    | none => simp
    | some r =>
        simp only [Option.map_some', Option.some.injEq]
        rw [foldl_or_mem]
        by_cases h : coord r ∈ items <;> simp [h]

/-- Insert a value into an ascending list, keeping it ascending. -/
def insertAsc (x : Nat) : List Nat → List Nat
  | [] => [x]
  | y :: ys => if x ≤ y then x :: y :: ys else y :: insertAsc x ys

/-- `np.unique`: the sorted list of distinct values. -/
def sortedUnique (l : List Nat) : List Nat := l.dedup.foldr insertAsc []

lemma mem_insertAsc (a x : Nat) : ∀ t, a ∈ insertAsc x t ↔ a = x ∨ a ∈ t := by
  intro t
  induction t with
  | nil => simp [insertAsc]
  | cons y ys ih =>
      by_cases h : x ≤ y
      · simp [insertAsc, h]
      · simp [insertAsc, h, ih]
        tauto

lemma mem_insertFold (a : Nat) : ∀ m : List Nat, a ∈ m.foldr insertAsc [] ↔ a ∈ m := by
  intro m
  induction m with
  | nil => simp
  | cons y ys ih => simp [List.foldr_cons, mem_insertAsc, ih]

lemma mem_sortedUnique (a : Nat) (l : List Nat) : a ∈ sortedUnique l ↔ a ∈ l := by
  rw [sortedUnique, mem_insertFold, List.mem_dedup]

lemma nodup_insertAsc (x : Nat) : ∀ t : List Nat, x ∉ t → t.Nodup → (insertAsc x t).Nodup := by
  intro t
  induction t with
  | nil => intro _ _; simp [insertAsc]
  | cons y ys ih =>
      intro hx hnd
      rw [List.mem_cons, not_or] at hx
      rw [List.nodup_cons] at hnd
      by_cases h : x ≤ y
      · simp only [insertAsc, if_pos h, List.nodup_cons, List.mem_cons, not_or]
        exact ⟨⟨hx.1, hx.2⟩, hnd.1, hnd.2⟩
      · simp only [insertAsc, if_neg h, List.nodup_cons]
        refine ⟨?_, ih hx.2 hnd.2⟩
        rw [mem_insertAsc]
        rintro (rfl | hy)
        · exact h le_rfl
        · exact hnd.1 hy

lemma nodup_insertFold : ∀ m : List Nat, m.Nodup → (m.foldr insertAsc []).Nodup := by
  intro m
  induction m with
  | nil => intro _; simp
  | cons y ys ih =>
      intro h
      rw [List.nodup_cons] at h
      simp only [List.foldr_cons]
      apply nodup_insertAsc
      · rw [mem_insertFold]; exact h.1
      · exact ih h.2

lemma nodup_sortedUnique (l : List Nat) : (sortedUnique l).Nodup :=
  nodup_insertFold l.dedup (List.nodup_dedup l)

/-- Sub-array of the samples carrying one scan ID (`arr[arr.scanid == id]`). -/
def subArr (arr : List Row) (id : Nat) : List Row :=
  arr.filter (fun q => decide (q.scanid = id))

/-- Mean of a list of rationals (`mean` over the time axis for one channel). -/
def qmean (l : List ℚ) : ℚ := l.sum / (l.length : ℚ)

/-- Column-wise (per-channel) sum of a list of sample value vectors. -/
def colSum : List (List ℚ) → List ℚ
  | [] => []
  | [v] => v
  | v :: vs => List.zipWith (· + ·) v (colSum vs)

/-- Column-wise (per-channel) time-mean (`array.mean('t')`). -/
def colMean (rows : List (List ℚ)) : List ℚ :=
  (colSum rows).map (fun s => s / (rows.length : ℚ))

lemma colSum_cons_cons (v w : List ℚ) (vs : List (List ℚ)) :
    colSum (v :: w :: vs) = List.zipWith (· + ·) v (colSum (w :: vs)) := rfl

lemma length_colSum (nch : Nat) :
    ∀ rows : List (List ℚ), rows ≠ [] → (∀ v ∈ rows, v.length = nch) →
      (colSum rows).length = nch := by
  intro rows
  induction rows with
  | nil => intro h; exact absurd rfl h
  | cons v vs ih =>
      intro _ hall
      cases vs with
      | nil => simpa [colSum] using hall v (by simp)
      | cons w ws =>
          rw [colSum_cons_cons, List.length_zipWith,
            ih (by simp) (fun u hu => hall u (List.mem_cons_of_mem v hu)),
            hall v (by simp), min_self]

lemma getD_colSum (nch j : Nat) (hj : j < nch) :
    ∀ rows : List (List ℚ), rows ≠ [] → (∀ v ∈ rows, v.length = nch) →
      (colSum rows).getD j 0 = (rows.map (fun v => v.getD j 0)).sum := by
  intro rows
  induction rows with
  | nil => intro h; exact absurd rfl h
  | cons v vs ih =>
      intro _ hall
      cases vs with
      | nil => simp [colSum]
      | cons w ws =>
          have hv : v.length = nch := hall v (by simp)
          have hrest : ∀ u ∈ w :: ws, u.length = nch :=
            fun u hu => hall u (List.mem_cons_of_mem v hu)
          have hlen : (colSum (w :: ws)).length = nch :=
            length_colSum nch (w :: ws) (by simp) hrest
          have hzlen : j < (List.zipWith (· + ·) v (colSum (w :: ws))).length := by
            rw [List.length_zipWith, hv, hlen, min_self]; exact hj
          rw [colSum_cons_cons, List.getD_eq_getElem _ _ hzlen, List.getElem_zipWith,
            ← List.getD_eq_getElem v (0:ℚ) (by rw [hv]; exact hj),
            ← List.getD_eq_getElem (colSum (w :: ws)) (0:ℚ) (by rw [hlen]; exact hj),
            ih (by simp) hrest]
          simp

lemma length_colMean (nch : Nat) (rows : List (List ℚ)) (hne : rows ≠ [])
    (hall : ∀ v ∈ rows, v.length = nch) : (colMean rows).length = nch := by
  rw [colMean, List.length_map]
  exact length_colSum nch rows hne hall

lemma getD_colMean (nch j : Nat) (hj : j < nch) (rows : List (List ℚ)) (hne : rows ≠ [])
    (hall : ∀ v ∈ rows, v.length = nch) :
    (colMean rows).getD j 0 = qmean (rows.map (fun v => v.getD j 0)) := by
  have hlen : (colSum rows).length = nch := length_colSum nch rows hne hall
  have hjlen : j < (colSum rows).length := by rw [hlen]; exact hj
  rw [colMean, List.getD_eq_getElem _ _ (by simpa using hjlen), List.getElem_map,
    ← List.getD_eq_getElem (colSum rows) (0:ℚ) hjlen, getD_colSum nch j hj rows hne hall,
    qmean, List.length_map]

lemma colMean_const (v : List ℚ) (rows : List (List ℚ)) (hne : rows ≠ [])
    (hall : ∀ u ∈ rows, u = v) : colMean rows = v := by
  have hn : (rows.length : ℚ) ≠ 0 := by
    simpa using fun h => hne (List.length_eq_zero.mp h)
  have hlen : (colMean rows).length = v.length :=
    length_colMean v.length rows hne (fun u hu => by rw [hall u hu])
  apply List.ext_getElem hlen
  intro j h1 h2
  rw [← List.getD_eq_getElem (colMean rows) (0:ℚ) h1, ← List.getD_eq_getElem v (0:ℚ) h2,
    getD_colMean v.length j h2 rows hne (fun u hu => by rw [hall u hu])]
  have hmap : rows.map (fun u => u.getD j 0) = List.replicate rows.length (v.getD j 0) := by
    rw [List.eq_replicate_iff]
    constructor
    · simp
    · intro b hb
      obtain ⟨u, hu, rfl⟩ := List.mem_map.mp hb
      rw [hall u hu]
  rw [qmean, hmap, List.sum_replicate, List.length_replicate, nsmul_eq_mul,
    mul_div_cancel_left₀ _ hn]

/-- Three-list pointwise zip (per-channel combination of three vectors). -/
def zipWith3 (f : ℚ → ℚ → ℚ → ℚ) : List ℚ → List ℚ → List ℚ → List ℚ
  | a :: as, b :: bs, c :: cs => f a b c :: zipWith3 f as bs cs
  | _, _, _ => []

lemma getElem?_zipWith3 (f : ℚ → ℚ → ℚ → ℚ) :
    ∀ (as bs cs : List ℚ) (i : Nat) (a b c : ℚ),
      as[i]? = some a → bs[i]? = some b → cs[i]? = some c →
      (zipWith3 f as bs cs)[i]? = some (f a b c) := by
  intro as
  induction as with
  | nil => intro bs cs i a b c h; simp at h
  | cons x xs ih =>
      intro bs cs i a b c h1 h2 h3
      cases bs with
      | nil => simp at h2
      | cons y ys =>
          cases cs with
          | nil => simp at h3
          | cons z zs =>
              cases i with
              | zero =>
                  simp at h1 h2 h3
                  simp [zipWith3, h1, h2, h3]
              | succ j =>
                  simp at h1 h2 h3
                  simpa [zipWith3] using ih ys zs j a b c h1 h2 h3

lemma zipWith_replicate_both (f : ℚ → ℚ → ℚ) (a b : ℚ) :
    ∀ n, List.zipWith f (List.replicate n a) (List.replicate n b) =
      List.replicate n (f a b) := by
  intro n
  induction n with
  | zero => rfl
  | succ m ih => simp [List.replicate_succ, ih]

lemma zipWith3_replicate (f : ℚ → ℚ → ℚ → ℚ) (a b c : ℚ) :
    ∀ n, zipWith3 f (List.replicate n a) (List.replicate n b) (List.replicate n c) =
      List.replicate n (f a b c) := by
  intro n
  induction n with
  | zero => rfl
  | succ m ih => simp [List.replicate_succ, zipWith3, ih]

/-- The value scipy's `interp1d` computes at an IN-RANGE time `t` for the
two knots `(t0, y0)`, `(t1, y1)` the code builds: per-channel linear
interpolation.  (The out-of-range check of `interp1d`'s default
`bounds_error=True` is performed at the call site, as in scipy's
evaluation.) -/
def linInterp (t0 t1 : ℚ) (y0 y1 : List ℚ) (t : ℚ) : List ℚ :=
  List.zipWith (fun a b => a + (b - a) * ((t - t0) / (t1 - t0))) y0 y1

/-- funcs.py `_calculate_Ton` (the per-ON-group body): require exactly two
distinct scan IDs in the bracketing OFF sub-array, linearly interpolate the
two OFF groups' per-channel time-means between their mean timestamps onto
each ON sample's timestamp, and return
`Tamb * (Pon - Poff_ip) / (Pr_mean - Poff_ip)`.  scipy's `interp1d`
defaults to `bounds_error=True`: an ON timestamp outside the closed
interval spanned by the two OFF mean timestamps raises `ValueError` at the
evaluation `interp1d(toff, spec, axis=0)(ton)`. -/
def calculate_Ton (Pon Poff Pr : List Row) (Tamb : ℚ) : Except String (List (List ℚ)) :=
  match sortedUnique (scanids Poff) with
  | [id0, id1] =>
      let pf := subArr Poff id0
      let pl := subArr Poff id1
      let tf := qmean (pf.map (fun q => (q.time : ℚ)))
      let tl := qmean (pl.map (fun q => (q.time : ℚ)))
      let sf := colMean (pf.map (fun q => q.vals))
      let sl := colMean (pl.map (fun q => q.vals))
      let pr0 := colMean (Pr.map (fun q => q.vals))
      if Pon.all (fun q => decide (min tf tl ≤ (q.time : ℚ)) &&
          decide ((q.time : ℚ) ≤ max tf tl)) then
        .ok (Pon.map (fun q =>
          zipWith3 (fun pon ip prc => Tamb * (pon - ip) / (prc - ip))
            q.vals (linInterp tf tl sf sl ((q.time : ℚ))) pr0))
      else .error "ValueError: A value in x_new is out of the interpolation range."
  | _ => .error "AssertionError: len(offids) == 2"

/-- C7: `_calculate_Ton` fails with its assertion exactly when the
bracketing OFF sub-array does not carry exactly two distinct scan-ID
values (more or fewer than two distinct IDs is a contract failure). -/
theorem C7_calculate_Ton_two_offids (Pon Poff Pr : List Row) (Tamb : ℚ) :
    calculate_Ton Pon Poff Pr Tamb = .error "AssertionError: len(offids) == 2" ↔
      (sortedUnique (scanids Poff)).length ≠ 2 := by
  cases h : sortedUnique (scanids Poff) with
  | nil => simp [calculate_Ton, h]
  | cons a t =>
      cases t with
      | nil => simp [calculate_Ton, h]
      | cons b t2 =>
          cases t2 with
          | nil =>
              constructor
              · intro hc
                exfalso
                simp only [calculate_Ton, h] at hc
                split at hc
                · exact Except.noConfusion hc
                · simp at hc
              · intro hne
                simp at hne
          | cons c t3 => simp [calculate_Ton, h]

lemma subArr_ne_nil_of_mem_ids (Poff : List Row) (i0 : Nat)
    (h : i0 ∈ sortedUnique (scanids Poff)) : subArr Poff i0 ≠ [] := by
  rw [mem_sortedUnique, scanids] at h
  obtain ⟨q, hq, rfl⟩ := List.mem_map.mp h
  exact List.ne_nil_of_mem (List.mem_filter.mpr ⟨hq, by simp⟩)

lemma subArr_subset (Poff : List Row) (i0 : Nat) (q : Row)
    (h : q ∈ subArr Poff i0) : q ∈ Poff :=
  List.mem_of_mem_filter h

/-- C1 (amended): for every ON group, whenever `_calculate_Ton` returns a
result, its value is, per sample and per channel,
`Tamb * (Pon - Poff_ip) / (Pr_mean - Poff_ip)` where `Poff_ip` is the
linear interpolation of the two bracketing OFF groups' per-channel
time-means (between the groups' mean timestamps) evaluated at the ON
sample's timestamp, and `Pr_mean` is the per-channel time-mean of the
paired REFERENCE sub-array; in particular, when ON and REFERENCE hold the
constant `c`, OFF holds the constant `d`, `c ≠ d`, and every ON timestamp
lies within the closed interval spanned by the two OFF groups' mean
timestamps (otherwise the interpolation fails with a range error), every
returned value is `Tamb`. -/
theorem C1_calculate_Ton_formula (Pon Poff Pr : List Row) (Tamb : ℚ)
    (id0 id1 nch : Nat) (htwo : sortedUnique (scanids Poff) = [id0, id1]) :
    ((∀ q ∈ Pon, q.vals.length = nch) → (∀ q ∈ Poff, q.vals.length = nch) →
     (∀ q ∈ Pr, q.vals.length = nch) → Pr ≠ [] →
     ∀ out, calculate_Ton Pon Poff Pr Tamb = .ok out →
     ∀ (i j : Nat) (q : Row), Pon[i]? = some q → j < nch →
     ∃ v, out[i]? = some v ∧
       v[j]? = some (
         Tamb * (q.vals.getD j 0 -
             (qmean ((subArr Poff id0).map (fun p => p.vals.getD j 0)) +
               (qmean ((subArr Poff id1).map (fun p => p.vals.getD j 0)) -
                 qmean ((subArr Poff id0).map (fun p => p.vals.getD j 0))) *
               (((q.time : ℚ) - qmean ((subArr Poff id0).map (fun p => (p.time : ℚ)))) /
                 (qmean ((subArr Poff id1).map (fun p => (p.time : ℚ))) -
                   qmean ((subArr Poff id0).map (fun p => (p.time : ℚ))))))) /
           (qmean (Pr.map (fun p => p.vals.getD j 0)) -
             (qmean ((subArr Poff id0).map (fun p => p.vals.getD j 0)) +
               (qmean ((subArr Poff id1).map (fun p => p.vals.getD j 0)) -
                 qmean ((subArr Poff id0).map (fun p => p.vals.getD j 0))) *
               (((q.time : ℚ) - qmean ((subArr Poff id0).map (fun p => (p.time : ℚ)))) /
                 (qmean ((subArr Poff id1).map (fun p => (p.time : ℚ))) -
                   qmean ((subArr Poff id0).map (fun p => (p.time : ℚ))))))))) ∧
    (∀ c d : ℚ,
      (∀ q ∈ Pon, q.vals = List.replicate nch c) →
      (∀ q ∈ Poff, q.vals = List.replicate nch d) →
      (∀ q ∈ Pr, q.vals = List.replicate nch c) →
      Pr ≠ [] → c ≠ d →
      (∀ q ∈ Pon,
        min (qmean ((subArr Poff id0).map (fun p => (p.time : ℚ))))
            (qmean ((subArr Poff id1).map (fun p => (p.time : ℚ)))) ≤ (q.time : ℚ) ∧
        (q.time : ℚ) ≤
          max (qmean ((subArr Poff id0).map (fun p => (p.time : ℚ))))
              (qmean ((subArr Poff id1).map (fun p => (p.time : ℚ))))) →
      calculate_Ton Pon Poff Pr Tamb =
        .ok (Pon.map (fun _ => List.replicate nch Tamb))) := by
  have hf := subArr_ne_nil_of_mem_ids Poff id0 (by rw [htwo]; simp)
  have hl := subArr_ne_nil_of_mem_ids Poff id1 (by rw [htwo]; simp)
  have hfmapne : (subArr Poff id0).map (fun p => p.vals) ≠ [] := by
    simpa using hf
  have hlmapne : (subArr Poff id1).map (fun p => p.vals) ≠ [] := by
    simpa using hl
  constructor
  · intro hpon hpoff hpr hprne out hout i j q hq hj
    simp only [calculate_Ton, htwo] at hout
    split at hout
    case isFalse => exact absurd hout (by simp)
    simp only [Except.ok.injEq] at hout
    subst hout
    have hqmem : q ∈ Pon := List.getElem?_mem hq
    have hfw : ∀ v ∈ (subArr Poff id0).map (fun p => p.vals), v.length = nch := by
      intro v hv
      obtain ⟨p, hp, rfl⟩ := List.mem_map.mp hv
      exact hpoff p (subArr_subset Poff id0 p hp)
    have hlw : ∀ v ∈ (subArr Poff id1).map (fun p => p.vals), v.length = nch := by
      intro v hv
      obtain ⟨p, hp, rfl⟩ := List.mem_map.mp hv
      exact hpoff p (subArr_subset Poff id1 p hp)
    have hprw : ∀ v ∈ Pr.map (fun p => p.vals), v.length = nch := by
      intro v hv
      obtain ⟨p, hp, rfl⟩ := List.mem_map.mp hv
      exact hpr p hp
    have hprmapne : Pr.map (fun p => p.vals) ≠ [] := by simpa using hprne
    have hjq : j < q.vals.length := by rw [hpon q hqmem]; exact hj
    have h1 : q.vals[j]? = some (q.vals.getD j 0) := by
      rw [List.getElem?_eq_getElem hjq, List.getD_eq_getElem _ _ hjq]
    have h2 : (colMean ((subArr Poff id0).map (fun p => p.vals)))[j]? =
        some (qmean ((subArr Poff id0).map (fun p => p.vals.getD j 0))) := by
      have hjl : j < (colMean ((subArr Poff id0).map (fun p => p.vals))).length := by
        rw [length_colMean nch _ hfmapne hfw]; exact hj
      rw [List.getElem?_eq_getElem hjl, ← List.getD_eq_getElem _ (0:ℚ) hjl,
        getD_colMean nch j hj _ hfmapne hfw, List.map_map]
      rfl
    have h3 : (colMean ((subArr Poff id1).map (fun p => p.vals)))[j]? =
        some (qmean ((subArr Poff id1).map (fun p => p.vals.getD j 0))) := by
      have hjl : j < (colMean ((subArr Poff id1).map (fun p => p.vals))).length := by
        rw [length_colMean nch _ hlmapne hlw]; exact hj
      rw [List.getElem?_eq_getElem hjl, ← List.getD_eq_getElem _ (0:ℚ) hjl,
        getD_colMean nch j hj _ hlmapne hlw, List.map_map]
      rfl
    have h4 : (colMean (Pr.map (fun p => p.vals)))[j]? =
        some (qmean (Pr.map (fun p => p.vals.getD j 0))) := by
      have hjl : j < (colMean (Pr.map (fun p => p.vals))).length := by
        rw [length_colMean nch _ hprmapne hprw]; exact hj
      rw [List.getElem?_eq_getElem hjl, ← List.getD_eq_getElem _ (0:ℚ) hjl,
        getD_colMean nch j hj _ hprmapne hprw, List.map_map]
      rfl
    have h5 := get?_zipWith
      (fun a b => a + (b - a) *
        (((q.time : ℚ) - qmean ((subArr Poff id0).map (fun p => (p.time : ℚ)))) /
          (qmean ((subArr Poff id1).map (fun p => (p.time : ℚ))) -
            qmean ((subArr Poff id0).map (fun p => (p.time : ℚ))))))
      _ _ j _ _ h2 h3
    refine ⟨zipWith3 (fun pon ip prc => Tamb * (pon - ip) / (prc - ip)) q.vals
        (linInterp (qmean ((subArr Poff id0).map (fun p => (p.time : ℚ))))
          (qmean ((subArr Poff id1).map (fun p => (p.time : ℚ))))
          (colMean ((subArr Poff id0).map (fun p => p.vals)))
          (colMean ((subArr Poff id1).map (fun p => p.vals))) ((q.time : ℚ)))
        (colMean (Pr.map (fun p => p.vals))), ?_, ?_⟩
    · rw [List.getElem?_map, hq]; rfl
    · exact getElem?_zipWith3 _ q.vals _ _ j _ _ _ h1 h5 h4
  · intro c d hc hd hcr hprne hcd hrange
    have hcond : Pon.all (fun q =>
        decide (min (qmean ((subArr Poff id0).map (fun p => (p.time : ℚ))))
            (qmean ((subArr Poff id1).map (fun p => (p.time : ℚ)))) ≤ (q.time : ℚ)) &&
        decide ((q.time : ℚ) ≤
          max (qmean ((subArr Poff id0).map (fun p => (p.time : ℚ))))
              (qmean ((subArr Poff id1).map (fun p => (p.time : ℚ)))))) = true := by
      rw [List.all_eq_true]
      intro q hq
      simp only [Bool.and_eq_true, decide_eq_true_eq]
      exact hrange q hq
    simp only [calculate_Ton, htwo]
    rw [if_pos hcond]
    simp only [Except.ok.injEq]
    apply List.map_congr_left
    intro q hq
    have hsf : colMean ((subArr Poff id0).map (fun p => p.vals)) =
        List.replicate nch d := by
      apply colMean_const _ _ hfmapne
      intro u hu
      obtain ⟨p, hp, rfl⟩ := List.mem_map.mp hu
      exact hd p (subArr_subset Poff id0 p hp)
    have hsl : colMean ((subArr Poff id1).map (fun p => p.vals)) =
        List.replicate nch d := by
      apply colMean_const _ _ hlmapne
      intro u hu
      obtain ⟨p, hp, rfl⟩ := List.mem_map.mp hu
      exact hd p (subArr_subset Poff id1 p hp)
    have hpr0 : colMean (Pr.map (fun p => p.vals)) = List.replicate nch c := by
      apply colMean_const _ _ (by simpa using hprne)
      intro u hu
      obtain ⟨p, hp, rfl⟩ := List.mem_map.mp hu
      exact hcr p hp
    simp only [hc q hq, hsf, hsl, hpr0, linInterp, zipWith_replicate_both,
      zipWith3_replicate]
    have hip : d + (d - d) *
        (((q.time : ℚ) - qmean ((subArr Poff id0).map (fun p => (p.time : ℚ)))) /
          (qmean ((subArr Poff id1).map (fun p => (p.time : ℚ))) -
            qmean ((subArr Poff id0).map (fun p => (p.time : ℚ))))) = d := by
      simp
    rw [hip, mul_div_assoc, div_self (sub_ne_zero.mpr hcd), mul_one]

/-- C1 counterexample to the claim as stated: constant arrays
(ON = REFERENCE = 2, OFF = 1, levels distinct) whose single ON timestamp
100 lies outside the two OFF groups' mean timestamps 0 and 2:
`_calculate_Ton` fails with scipy `interp1d`'s interpolation-range error
(`bounds_error=True` by default) instead of returning `Tamb`. -/
theorem C1_calculate_Ton_out_of_range :
    calculate_Ton [⟨100, 0, 0, [2]⟩] [⟨0, 1, 1, [1]⟩, ⟨2, 1, 2, [1]⟩]
        [⟨1, 2, 9, [2]⟩] 273 =
      .error "ValueError: A value in x_new is out of the interpolation range." ∧
    (2 : ℚ) ≠ 1 := by
  constructor
  · have hsu : sortedUnique (scanids [(⟨0, 1, 1, [1]⟩ : Row), ⟨2, 1, 2, [1]⟩]) =
        [1, 2] := by decide
    simp only [calculate_Ton, hsu]
    have htf : qmean ((subArr [(⟨0, 1, 1, [1]⟩ : Row), ⟨2, 1, 2, [1]⟩] 1).map
        (fun p => (p.time : ℚ))) = 0 := by
      norm_num [subArr, qmean, List.filter_cons]
    have htl : qmean ((subArr [(⟨0, 1, 1, [1]⟩ : Row), ⟨2, 1, 2, [1]⟩] 2).map
        (fun p => (p.time : ℚ))) = 2 := by
      norm_num [subArr, qmean, List.filter_cons]
    rw [htf, htl]
    norm_num [min_def, max_def]
  · norm_num

/-- Concrete instantiation of C1 (amended): with ON = REFERENCE =
constant 2, OFF = constant 1 (two bracketing OFF groups), and the ON
timestamp 1 inside the OFF mean-timestamp range [0, 2], the calibrated
values are all `Tamb`. -/
theorem C1_calculate_Ton_formula_witness :
    calculate_Ton [⟨1, 0, 0, [2]⟩] [⟨0, 1, 1, [1]⟩, ⟨2, 1, 2, [1]⟩]
        [⟨1, 2, 9, [2]⟩] 273 =
      .ok ([(⟨1, 0, 0, [2]⟩ : Row)].map (fun _ => List.replicate 1 (273 : ℚ))) :=
  (C1_calculate_Ton_formula [⟨1, 0, 0, [2]⟩] [⟨0, 1, 1, [1]⟩, ⟨2, 1, 2, [1]⟩]
      [⟨1, 2, 9, [2]⟩] 273 1 2 1 (by decide)).2 2 1
    (by intro q hq; rw [List.mem_singleton] at hq; subst hq; rfl)
    (by
      intro q hq
      simp only [List.mem_cons, List.not_mem_nil, or_false] at hq
      rcases hq with rfl | rfl <;> rfl)
    (by intro q hq; rw [List.mem_singleton] at hq; subst hq; rfl)
    (List.cons_ne_nil _ _)
    (by norm_num)
    (by
      have htf : qmean ((subArr [(⟨0, 1, 1, [1]⟩ : Row), ⟨2, 1, 2, [1]⟩] 1).map
          (fun p => (p.time : ℚ))) = 0 := by
        norm_num [subArr, qmean, List.filter_cons]
      have htl : qmean ((subArr [(⟨0, 1, 1, [1]⟩ : Row), ⟨2, 1, 2, [1]⟩] 2).map
          (fun p => (p.time : ℚ))) = 2 := by
        norm_num [subArr, qmean, List.filter_cons]
      intro q hq
      rw [List.mem_singleton] at hq
      subst hq
      rw [htf, htl]
      constructor
      · norm_num [min_def]
      · norm_num [max_def])

/-- `xr.zeros_like`: same coordinates, all data values zero. -/
def zeroRow (r : Row) : Row := {r with vals := r.vals.map (fun _ => 0)}

/-- `xr.zeros_like` over a whole array. -/
def zerosLike (arr : List Row) : List Row := arr.map zeroRow

/-- The coordinate triple of one sample. -/
def coordsOf (r : Row) : Int × Nat × Nat := (r.time, r.scantype, r.scanid)

/-- The coordinate content of an array (everything except the data values). -/
def coords (arr : List Row) : List (Int × Nat × Nat) := arr.map coordsOf

/-- Sample-wise channel counts (the second shape component of an array). -/
def widths (arr : List Row) : List Nat := arr.map (fun r => r.vals.length)

/-- `Tout_.shape == Tin_.shape`: same number of samples and same channel
counts. -/
def shapeEqb (a b : List Row) : Bool :=
  decide (a.length = b.length) && decide (widths a = widths b)

/-- `Tout[index] = Tout_`: write the listed value vectors back into the
samples carrying the given scan ID, in order, leaving all other samples
(and every coordinate) unchanged. -/
def writeBack : List Row → Nat → List (List ℚ) → List Row
  | [], _, _ => []
  | r :: rest, id, vs =>
      if r.scanid = id then
        match vs with
        | [] => r :: writeBack rest id []
        | v :: vs' => {r with vals := v} :: writeBack rest id vs'
      else r :: writeBack rest id vs

/-- One iteration of the `apply_each_scanid` loop: select the sub-array of
one scan ID, apply the function, check the shape contract, write back. -/
def scanidStep (f : List Row → List Row) (arr : List Row) (out : List Row)
    (id : Nat) : Except String (List Row) :=
  let tin := subArr arr id
  let tout := f tin
  if shapeEqb tout tin = true then
    .ok (writeBack out id (tout.map (fun r => r.vals)))
  else .error "AssertionError: shape mismatch"

/-- utils.py `apply_each_scanid`: apply the function independently to the
sub-array of each distinct scan ID (ascending) and reassemble the results
into a `zeros_like` copy of the input. -/
def apply_each_scanid (f : List Row → List Row) (arr : List Row) :
    Except String (List Row) :=
  (sortedUnique (scanids arr)).foldlM (scanidStep f arr) (zerosLike arr)

/-- `np.searchsorted` (side='left') on a sorted list: the number of elements
strictly below the probe. -/
def searchsorted (l : List Nat) (v : Nat) : Nat :=
  l.countP (fun x => decide (x < v))

/-- The bracketing (former, latter) OFF/REFERENCE IDs for one ON ID:
`refids[index_l]` is the latter and `refids[index_l - 1]` the former, with
Python indexing (`-1` wraps to the last element; an index one past the end
is an `IndexError`, modelled as `none`). -/
def bracketPair (refids : List Nat) (onid : Nat) : Option (Nat × Nat) :=
  let i := searchsorted refids onid
  if i < refids.length then
    some (if i = 0 then refids.getLastD 0 else refids.getD (i-1) 0, refids.getD i 0)
  else none

/-- One iteration of the `apply_each_onref` loop: locate the two bracketing
REFERENCE IDs of one ON ID, select the ON sub-array and the union of the
two bracketing REFERENCE groups, apply the function, check the shape
contract, write back. -/
def onrefStep (f : List Row → List Row → List Row) (ton tref : List Row)
    (out : List Row) (onid : Nat) : Except String (List Row) :=
  match bracketPair (sortedUnique (scanids tref)) onid with
  | none => .error "IndexError: index out of bounds"
  | some (fid, lid) =>
      let ton_ := subArr ton onid
      let tref_ := tref.filter (fun q => decide (q.scanid = fid) || decide (q.scanid = lid))
      let tout_ := f ton_ tref_
      if shapeEqb tout_ ton_ = true then
        .ok (writeBack out onid (tout_.map (fun r => r.vals)))
      else .error "AssertionError: shape mismatch"

/-- utils.py `apply_each_onref`: for each distinct ON scan ID (ascending),
apply the function to the ON sub-array and its bracketing REFERENCE
sub-array, writing results back into a `zeros_like` copy of the ON array. -/
def apply_each_onref (f : List Row → List Row → List Row) (ton tref : List Row) :
    Except String (List Row) :=
  (sortedUnique (scanids ton)).foldlM (onrefStep f ton tref) (zerosLike ton)

lemma coords_writeBack (id : Nat) :
    ∀ (out : List Row) (vs : List (List ℚ)), coords (writeBack out id vs) = coords out := by
  intro out
  induction out with
  | nil => intro vs; rfl
  | cons r rest ih =>
      intro vs
      have ih' : ∀ vs', List.map coordsOf (writeBack rest id vs') =
          List.map coordsOf rest := fun vs' => by simpa [coords] using ih vs'
      by_cases hr : r.scanid = id
      · cases vs with
        | nil => simp [writeBack, hr, coords, coordsOf, ih']
        | cons v vs' => simp [writeBack, hr, coords, coordsOf, ih']
      · simp [writeBack, hr, coords, coordsOf, ih']

lemma scanids_eq_of_coords {a b : List Row} (h : coords a = coords b) :
    scanids a = scanids b := by
  have := congrArg (List.map (fun t : Int × Nat × Nat => t.2.2)) h
  simpa [coords, scanids, List.map_map, Function.comp] using this

lemma scantypes_eq_of_coords {a b : List Row} (h : coords a = coords b) :
    scantypes a = scantypes b := by
  have := congrArg (List.map (fun t : Int × Nat × Nat => t.2.1)) h
  simpa [coords, scantypes, List.map_map, Function.comp] using this

lemma coords_zerosLike (arr : List Row) : coords (zerosLike arr) = coords arr := by
  simp [coords, zerosLike, List.map_map, Function.comp, zeroRow, coordsOf]

lemma scanids_writeBack (id : Nat) (out : List Row) (vs : List (List ℚ)) :
    scanids (writeBack out id vs) = scanids out :=
  scanids_eq_of_coords (coords_writeBack id out vs)

lemma scanids_zerosLike (arr : List Row) : scanids (zerosLike arr) = scanids arr :=
  scanids_eq_of_coords (coords_zerosLike arr)

lemma subArr_writeBack_ne (id id' : Nat) (h : id' ≠ id) :
    ∀ (out : List Row) (vs : List (List ℚ)),
      subArr (writeBack out id vs) id' = subArr out id' := by
  intro out
  induction out with
  | nil => intro vs; rfl
  | cons r rest ih =>
      intro vs
      have ih' : ∀ vs', List.filter (fun q => decide (q.scanid = id')) (writeBack rest id vs') =
          List.filter (fun q => decide (q.scanid = id')) rest :=
        fun vs' => by simpa [subArr] using ih vs'
      by_cases hr : r.scanid = id
      · have hr' : r.scanid ≠ id' := by rw [hr]; exact fun hc => h hc.symm
        cases vs with
        | nil => simp [writeBack, hr, subArr, List.filter_cons, hr', ih']
        | cons v vs' =>
            simp [writeBack, hr, subArr, List.filter_cons, hr', ih', Ne.symm h]
      · simp [writeBack, hr, subArr, List.filter_cons, ih']

lemma subArr_writeBack_self (id : Nat) :
    ∀ (out : List Row) (vs : List (List ℚ)),
      vs.length = (subArr out id).length →
      (subArr (writeBack out id vs) id).map (fun r => r.vals) = vs := by
  intro out
  induction out with
  | nil =>
      intro vs h
      simp [subArr] at h
      subst h
      rfl
  | cons r rest ih =>
      intro vs h
      by_cases hr : r.scanid = id
      · rw [subArr, List.filter_cons_of_pos (by simpa using hr)] at h
        cases vs with
        | nil => simp at h
        | cons v vs' =>
            simp only [List.length_cons, Nat.succ.injEq] at h
            have hih := ih vs' h
            simp only [subArr] at hih
            simp [writeBack, hr, subArr, List.filter_cons, hih]
      · rw [subArr, List.filter_cons_of_neg (by simpa using hr)] at h
        have hih := ih vs h
        simp only [subArr] at hih
        simp [writeBack, hr, subArr, List.filter_cons, hih]

lemma length_subArr_congr {a b : List Row} (h : scanids a = scanids b) :
    ∀ id, (subArr a id).length = (subArr b id).length := by
  induction a generalizing b with
  | nil =>
      intro id
      have hb : b = [] := by
        cases b with
        | nil => rfl
        | cons s u => simp [scanids] at h
      subst hb
      rfl
  | cons r t ih =>
      intro id
      cases b with
      | nil => simp [scanids] at h
      | cons s u =>
          simp only [scanids, List.map_cons, List.cons.injEq] at h
          by_cases hr : r.scanid = id
          · rw [subArr, List.filter_cons_of_pos (by simpa using hr),
              subArr, List.filter_cons_of_pos (by simp [← h.1, hr])]
            simpa [subArr] using ih (by simpa [scanids] using h.2) id
          · rw [subArr, List.filter_cons_of_neg (by simpa using hr),
              subArr, List.filter_cons_of_neg (by simp [← h.1, hr])]
            exact ih (by simpa [scanids] using h.2) id

lemma shapeEqb_true_iff (a b : List Row) :
    shapeEqb a b = true ↔ (a.length = b.length ∧ widths a = widths b) := by
  simp [shapeEqb]

lemma foldlM_scanid_ok (f : List Row → List Row) (arr : List Row) :
    ∀ ids : List Nat, ids.Nodup →
      (∀ id ∈ ids, shapeEqb (f (subArr arr id)) (subArr arr id) = true) →
      ∀ out0 : List Row, scanids out0 = scanids arr →
      ∃ out, List.foldlM (scanidStep f arr) out0 ids = .ok out ∧
        coords out = coords out0 ∧
        (∀ id, id ∉ ids → subArr out id = subArr out0 id) ∧
        (∀ id ∈ ids, (subArr out id).map (fun r => r.vals) =
          (f (subArr arr id)).map (fun r => r.vals)) := by
  intro ids
  induction ids with
  | nil =>
      intro _ _ out0 _
      exact ⟨out0, rfl, rfl, fun _ _ => rfl, fun id hid => absurd hid (List.not_mem_nil id)⟩
  | cons id rest ih =>
      intro hnd hsh out0 hsc
      rw [List.nodup_cons] at hnd
      have hshid := hsh id (List.mem_cons_self id rest)
      have hvslen : ((f (subArr arr id)).map (fun r => r.vals)).length =
          (subArr out0 id).length := by
        rw [List.length_map, ((shapeEqb_true_iff _ _).mp hshid).1]
        exact length_subArr_congr hsc.symm id
      have hstep : scanidStep f arr out0 id =
          .ok (writeBack out0 id ((f (subArr arr id)).map (fun r => r.vals))) := by
        rw [scanidStep]
        simp only [hshid, if_pos]
      obtain ⟨out, hfold, hco, hnotin, hin⟩ :=
        ih hnd.2 (fun i hi => hsh i (List.mem_cons_of_mem id hi))
          (writeBack out0 id ((f (subArr arr id)).map (fun r => r.vals)))
          (by rw [scanids_writeBack]; exact hsc)
      refine ⟨out, ?_, ?_, ?_, ?_⟩
      · rw [List.foldlM_cons, hstep]
        simpa using hfold
      · rw [hco, coords_writeBack]
      · intro i hi
        rw [List.mem_cons, not_or] at hi
        rw [hnotin i hi.2, subArr_writeBack_ne id i hi.1]
      · intro i hi
        rcases List.mem_cons.mp hi with rfl | hi'
        · rw [hnotin i hnd.1, subArr_writeBack_self i out0 _ hvslen]
        · exact hin i hi'

lemma foldlM_scanid_err (f : List Row → List Row) (arr : List Row) :
    ∀ ids : List Nat,
      (∃ id ∈ ids, shapeEqb (f (subArr arr id)) (subArr arr id) = false) →
      ∀ out0 : List Row,
        List.foldlM (scanidStep f arr) out0 ids =
          .error "AssertionError: shape mismatch" := by
  intro ids
  induction ids with
  | nil => intro h; exact absurd h (by simp)
  | cons id rest ih =>
      intro h out0
      obtain ⟨id', hid', hbad⟩ := h
      by_cases hsh : shapeEqb (f (subArr arr id)) (subArr arr id) = true
      · have hstep : scanidStep f arr out0 id =
            .ok (writeBack out0 id ((f (subArr arr id)).map (fun r => r.vals))) := by
          rw [scanidStep]
          simp only [hsh, if_pos]
        rw [List.foldlM_cons, hstep]
        have hid'' : id' ∈ rest := by
          rcases List.mem_cons.mp hid' with rfl | h'
          · rw [hsh] at hbad; exact absurd hbad (by simp)
          · exact h'
        simpa using ih ⟨id', hid'', hbad⟩ _
      · have hstep : scanidStep f arr out0 id =
            .error "AssertionError: shape mismatch" := by
          rw [scanidStep]
          simp [hsh]
        rw [List.foldlM_cons, hstep]
        rfl

/-- C6: `apply_each_scanid` fails with the shape assertion when the wrapped
function returns a wrong-shaped result for some scan-ID group, and when
every group's result matches its input shape it returns an array with the
input's coordinates whose per-group values are exactly the wrapped
function's per-group results. -/
theorem C6_apply_each_scanid_contract (f : List Row → List Row) (arr : List Row) :
    ((∃ id ∈ sortedUnique (scanids arr),
        shapeEqb (f (subArr arr id)) (subArr arr id) = false) →
      apply_each_scanid f arr = .error "AssertionError: shape mismatch") ∧
    ((∀ id ∈ sortedUnique (scanids arr),
        shapeEqb (f (subArr arr id)) (subArr arr id) = true) →
      ∃ out, apply_each_scanid f arr = .ok out ∧
        coords out = coords arr ∧
        ∀ id ∈ sortedUnique (scanids arr),
          (subArr out id).map (fun r => r.vals) =
            (f (subArr arr id)).map (fun r => r.vals)) := by
  constructor
  · intro h
    exact foldlM_scanid_err f arr _ h _
  · intro h
    obtain ⟨out, hfold, hco, _, hin⟩ :=
      foldlM_scanid_ok f arr _ (nodup_sortedUnique _) h (zerosLike arr)
        (scanids_zerosLike arr)
    exact ⟨out, hfold, by rw [hco, coords_zerosLike], hin⟩

/-- Concrete instantiation of C6: the identity function reproduces the
input array; a function returning an empty (wrong-shaped) result raises
the shape assertion. -/
theorem C6_apply_each_scanid_contract_witness :
    (apply_each_scanid (fun _ => []) [⟨0, 0, 0, []⟩] =
      .error "AssertionError: shape mismatch") ∧
    (∃ out, apply_each_scanid (fun a => a) [⟨0, 0, 0, []⟩] = .ok out ∧
      coords out = coords [⟨0, 0, 0, []⟩] ∧
      ∀ id ∈ sortedUnique (scanids [(⟨0, 0, 0, []⟩ : Row)]),
        (subArr out id).map (fun r => r.vals) =
          ((fun a => a) (subArr [(⟨0, 0, 0, []⟩ : Row)] id)).map (fun r => r.vals)) :=
  ⟨(C6_apply_each_scanid_contract (fun _ => []) [⟨0, 0, 0, []⟩]).1
      ⟨0, by decide, by decide⟩,
   (C6_apply_each_scanid_contract (fun a => a) [⟨0, 0, 0, []⟩]).2 (by decide)⟩

/-- C9: when the ON scan ID precedes every REFERENCE scan ID, the insertion
point is 0 and the "former" bracketing ID (`refids[-1]`) wraps to the LAST
element of the sorted unique REFERENCE ID list, the "latter" being its
first; `onrefStep` then passes the union of those two groups to the
wrapped function. -/
theorem C9_onref_former_wraps (f : List Row → List Row → List Row)
    (ton tref out : List Row) (onid : Nat)
    (hne : tref ≠ []) (hlt : ∀ q ∈ tref, onid < q.scanid) :
    bracketPair (sortedUnique (scanids tref)) onid =
      some ((sortedUnique (scanids tref)).getLastD 0,
            (sortedUnique (scanids tref)).getD 0 0) ∧
    onrefStep f ton tref out onid =
      (if shapeEqb
            (f (subArr ton onid)
              (tref.filter (fun q =>
                decide (q.scanid = (sortedUnique (scanids tref)).getLastD 0) ||
                decide (q.scanid = (sortedUnique (scanids tref)).getD 0 0))))
            (subArr ton onid) = true
       then .ok (writeBack out onid
          ((f (subArr ton onid)
              (tref.filter (fun q =>
                decide (q.scanid = (sortedUnique (scanids tref)).getLastD 0) ||
                decide (q.scanid = (sortedUnique (scanids tref)).getD 0 0)))).map
            (fun r => r.vals)))
       else .error "AssertionError: shape mismatch") := by
  have hz : searchsorted (sortedUnique (scanids tref)) onid = 0 := by
    rw [searchsorted, List.countP_eq_zero]
    intro x hx
    rw [mem_sortedUnique, scanids] at hx
    obtain ⟨q, hq, rfl⟩ := List.mem_map.mp hx
    simp only [decide_eq_true_eq]
    exact fun hc => absurd hc (not_lt.mpr (le_of_lt (hlt q hq)))
  have hpos : 0 < (sortedUnique (scanids tref)).length := by
    obtain ⟨q, hq⟩ := List.exists_mem_of_ne_nil tref hne
    have hmem : q.scanid ∈ sortedUnique (scanids tref) :=
      (mem_sortedUnique _ _).mpr (by rw [scanids]; exact List.mem_map_of_mem _ hq)
    exact List.length_pos.mpr (List.ne_nil_of_mem hmem)
  have hbp : bracketPair (sortedUnique (scanids tref)) onid =
      some ((sortedUnique (scanids tref)).getLastD 0,
            (sortedUnique (scanids tref)).getD 0 0) := by
    simp [bracketPair, hz, hpos]
  refine ⟨hbp, ?_⟩
  simp only [onrefStep, hbp]

/-- Concrete instantiation of C9: ON ID 1 precedes the only REFERENCE
ID 3; the former bracketing ID wraps to the last list element. -/
theorem C9_onref_former_wraps_witness :
    bracketPair (sortedUnique (scanids [(⟨0, 0, 3, []⟩ : Row)])) 1 =
      some ((sortedUnique (scanids [(⟨0, 0, 3, []⟩ : Row)])).getLastD 0,
            (sortedUnique (scanids [(⟨0, 0, 3, []⟩ : Row)])).getD 0 0) :=
  (C9_onref_former_wraps (fun a _ => a) [⟨1, 1, 1, []⟩] [⟨0, 0, 3, []⟩] [] 1
    (by decide) (by decide)).1

lemma onrefStep_overflow (f : List Row → List Row → List Row)
    (ton tref out : List Row) (onid : Nat)
    (hgt : ∀ q ∈ tref, q.scanid < onid) :
    searchsorted (sortedUnique (scanids tref)) onid =
        (sortedUnique (scanids tref)).length ∧
    bracketPair (sortedUnique (scanids tref)) onid = none ∧
    onrefStep f ton tref out onid = .error "IndexError: index out of bounds" := by
  have hss : searchsorted (sortedUnique (scanids tref)) onid =
      (sortedUnique (scanids tref)).length := by
    rw [searchsorted, List.countP_eq_length]
    intro x hx
    rw [mem_sortedUnique, scanids] at hx
    obtain ⟨q, hq, rfl⟩ := List.mem_map.mp hx
    simpa using hgt q hq
  have hbp : bracketPair (sortedUnique (scanids tref)) onid = none := by
    simp [bracketPair, hss]
  refine ⟨hss, hbp, ?_⟩
  simp only [onrefStep, hbp]

/-- C10: when an ON scan ID strictly exceeds every REFERENCE scan ID, the
insertion point equals the length of the REFERENCE ID list (so the code's
`0 <= index_l <= len(refids)` assertion passes), and the lookup of the
"latter" bracketing ID indexes one past the end: the step — and, when
every ON ID does so, the whole wrapper — fails with an out-of-bounds
indexing error, not the shape-contract assertion. -/
theorem C10_onref_index_error (f : List Row → List Row → List Row)
    (ton tref out : List Row) (onid : Nat) :
    ((∀ q ∈ tref, q.scanid < onid) →
      searchsorted (sortedUnique (scanids tref)) onid =
          (sortedUnique (scanids tref)).length ∧
      bracketPair (sortedUnique (scanids tref)) onid = none ∧
      onrefStep f ton tref out onid = .error "IndexError: index out of bounds") ∧
    (ton ≠ [] → (∀ q ∈ ton, ∀ p ∈ tref, p.scanid < q.scanid) →
      apply_each_onref f ton tref = .error "IndexError: index out of bounds") := by
  constructor
  · exact onrefStep_overflow f ton tref out onid
  · intro hne hgt
    cases heq : sortedUnique (scanids ton) with
    | nil =>
        exfalso
        obtain ⟨q, hq⟩ := List.exists_mem_of_ne_nil ton hne
        have hmem : q.scanid ∈ sortedUnique (scanids ton) :=
          (mem_sortedUnique _ _).mpr (by rw [scanids]; exact List.mem_map_of_mem _ hq)
        rw [heq] at hmem
        exact List.not_mem_nil _ hmem
    | cons id0 rest =>
        have hid0 : id0 ∈ scanids ton :=
          (mem_sortedUnique _ _).mp (by rw [heq]; exact List.mem_cons_self id0 rest)
        rw [scanids] at hid0
        obtain ⟨q0, hq0, hq0id⟩ := List.mem_map.mp hid0
        have hgt0 : ∀ p ∈ tref, p.scanid < id0 := by
          intro p hp
          rw [← hq0id]
          exact hgt q0 hq0 p hp
        rw [apply_each_onref, heq, List.foldlM_cons,
          (onrefStep_overflow f ton tref (zerosLike ton) id0 hgt0).2.2]
        rfl

/-- Concrete instantiation of C10: the only ON ID 5 exceeds the only
REFERENCE ID 2, and the wrapper fails with the out-of-bounds error. -/
theorem C10_onref_index_error_witness :
    apply_each_onref (fun a _ => a) [⟨1, 1, 5, []⟩] [⟨0, 0, 2, []⟩] =
      .error "IndexError: index out of bounds" :=
  (C10_onref_index_error (fun a _ => a) [⟨1, 1, 5, []⟩] [⟨0, 0, 2, []⟩] [] 5).2
    (by decide) (by decide)

/-- calibration.py `_interpolate_Pr` body (before decoration):
`dc.full_like(Psky, Pr.mean('t'))` — an array shaped like the sky sub-array
whose every sample holds the REFERENCE per-channel time-mean. -/
def interpolateBody (psky pr : List Row) : List Row :=
  psky.map (fun r => {r with vals := colMean (pr.map (fun p => p.vals))})

/-- calibration.py `recompose_darray`: select the ON+OFF ("sky") and
REFERENCE samples, interpolate REFERENCE onto the sky grid through
`apply_each_onref`, reallocate the sky scan IDs, copy them onto the
interpolated REFERENCE array, and split both by ON and OFF scan types. -/
def recompose_darray (arr : List Row) (ons offs rs : List Nat) :
    Except String (List Row × List Row × List Row × List Row) :=
  let psky := select arr (indexby arr (ons ++ offs))
  let pr := select arr (indexby arr rs)
  match apply_each_onref interpolateBody psky pr with
  | .error e => .error e
  | .ok prip =>
      let psky2 := reallocate_scanid psky none
      let prip2 := setScanids prip (scanids psky2)
      .ok (select psky2 (indexby psky2 ons), select psky2 (indexby psky2 offs),
           select prip2 (indexby prip2 ons), select prip2 (indexby prip2 offs))

lemma onrefStep_ok_coords (f : List Row → List Row → List Row)
    (ton tref out0 : List Row) (id : Nat) (out1 : List Row)
    (h : onrefStep f ton tref out0 id = .ok out1) : coords out1 = coords out0 := by
  rw [onrefStep] at h
  cases hbp : bracketPair (sortedUnique (scanids tref)) id with
  | none => rw [hbp] at h; exact absurd h (by simp)
  | some p =>
      obtain ⟨fid, lid⟩ := p
      rw [hbp] at h
      dsimp only at h
      split at h
      · rw [← Except.ok.inj h, coords_writeBack]
      · exact absurd h (by simp)

lemma foldlM_onref_ok_coords (f : List Row → List Row → List Row)
    (ton tref : List Row) :
    ∀ (ids : List Nat) (out0 out : List Row),
      List.foldlM (onrefStep f ton tref) out0 ids = .ok out →
      coords out = coords out0 := by
  intro ids
  induction ids with
  | nil =>
      intro out0 out h
      simp only [List.foldlM_nil] at h
      exact (congrArg coords (Except.ok.inj h)).symm
  | cons id rest ih =>
      intro out0 out h
      rw [List.foldlM_cons] at h
      cases hstep : onrefStep f ton tref out0 id with
      | error e =>
          rw [hstep] at h
          have hb : ((Except.error e : Except String (List Row)) >>=
              fun b => List.foldlM (onrefStep f ton tref) b rest) =
              Except.error e := rfl
          rw [hb] at h
          exact Except.noConfusion h
      | ok out1 =>
          rw [hstep] at h
          have hb : ((Except.ok out1 : Except String (List Row)) >>=
              fun b => List.foldlM (onrefStep f ton tref) b rest) =
              List.foldlM (onrefStep f ton tref) out1 rest := rfl
          rw [hb] at h
          rw [ih out1 out h, onrefStep_ok_coords f ton tref out0 id out1 hstep]

lemma apply_each_onref_ok_coords (f : List Row → List Row → List Row)
    (ton tref out : List Row) (h : apply_each_onref f ton tref = .ok out) :
    coords out = coords ton := by
  rw [apply_each_onref] at h
  rw [foldlM_onref_ok_coords f ton tref _ _ out h, coords_zerosLike]

lemma select_map {α β : Type} (g : α → β) :
    ∀ (l : List α) (mask : List Bool),
      (select l mask).map g = select (l.map g) mask := by
  intro l
  induction l with
  | nil => intro mask; rfl
  | cons x xs ih =>
      intro mask
      cases mask with
      | nil => rfl
      | cons b bs =>
          cases b <;> simp_all [select, List.filter_cons]

lemma scanids_select (a : List Row) (m : List Bool) :
    scanids (select a m) = select (scanids a) m := by
  rw [scanids, select_map]
  rfl

lemma indexby_congr {a b : List Row} (h : scantypes a = scantypes b)
    (items : List Nat) : indexby a items = indexby b items := by
  have ha : indexby a items = (scantypes a).map
      (fun s => items.foldl (fun acc it => acc || decide (s = it)) false) := by
    simp only [indexby, scantypes, List.map_map]
    rfl
  have hb : indexby b items = (scantypes b).map
      (fun s => items.foldl (fun acc it => acc || decide (s = it)) false) := by
    simp only [indexby, scantypes, List.map_map]
    rfl
  rw [ha, hb, h]

lemma length_reallocate (arr : List Row) (td : Option Int) :
    (reallocate_scanid arr td).length = arr.length := by
  rw [reallocate_scanid, setScanids, List.length_zipWith, length_cumsumBAux,
    length_condList, min_self]

lemma length_eq_of_coords {a b : List Row} (h : coords a = coords b) :
    a.length = b.length := by
  have := congrArg List.length h
  simpa [coords] using this

/-- C2: whenever `recompose_darray` succeeds, the ON power array and the
REFERENCE-for-ON array carry identical scan-ID sequences (sample-for-
sample), and likewise the OFF power array and the REFERENCE-for-OFF
array. -/
theorem C2_recompose_scanid_alignment (arr : List Row) (ons offs rs : List Nat)
    (pon poff pron proff : List Row)
    (h : recompose_darray arr ons offs rs = .ok (pon, poff, pron, proff)) :
    scanids pon = scanids pron ∧ scanids poff = scanids proff := by
  simp only [recompose_darray] at h
  cases hint : apply_each_onref interpolateBody
      (select arr (indexby arr (ons ++ offs))) (select arr (indexby arr rs)) with
  | error e => rw [hint] at h; exact absurd h (by simp)
  | ok prip =>
      rw [hint] at h
      simp only [Except.ok.injEq, Prod.mk.injEq] at h
      obtain ⟨h1, h2, h3, h4⟩ := h
      have hco : coords prip = coords (select arr (indexby arr (ons ++ offs))) :=
        apply_each_onref_ok_coords _ _ _ _ hint
      have hlen : prip.length = (select arr (indexby arr (ons ++ offs))).length :=
        length_eq_of_coords hco
      have hlen2 : (reallocate_scanid (select arr (indexby arr (ons ++ offs))) none).length =
          (select arr (indexby arr (ons ++ offs))).length :=
        length_reallocate _ none
      have hidlen : (scanids (reallocate_scanid
          (select arr (indexby arr (ons ++ offs))) none)).length = prip.length := by
        rw [scanids, List.length_map, hlen2, hlen]
      have hids2 : scanids (setScanids prip (scanids (reallocate_scanid
          (select arr (indexby arr (ons ++ offs))) none))) =
          scanids (reallocate_scanid (select arr (indexby arr (ons ++ offs))) none) :=
        scanids_setScanids prip _ hidlen
      have hst2 : scantypes (setScanids prip (scanids (reallocate_scanid
          (select arr (indexby arr (ons ++ offs))) none))) =
          scantypes (reallocate_scanid (select arr (indexby arr (ons ++ offs))) none) := by
        rw [scantypes_setScanids prip _ hidlen, scantypes_eq_of_coords hco,
          scantypes_reallocate]
      constructor
      · rw [← h1, ← h3, scanids_select, scanids_select, hids2,
          indexby_congr hst2.symm ons]
      · rw [← h2, ← h4, scanids_select, scanids_select, hids2,
          indexby_congr hst2.symm offs]

/-- Concrete instantiation of C2: one ON, one OFF and one REFERENCE sample;
the recomposed ON/REF-for-ON and OFF/REF-for-OFF pairs share scan IDs. -/
theorem C2_recompose_scanid_alignment_witness :
    scanids [(⟨0, 0, 0, []⟩ : Row)] = scanids [(⟨0, 0, 0, []⟩ : Row)] ∧
    scanids [(⟨1, 1, 1, []⟩ : Row)] = scanids [(⟨1, 1, 1, []⟩ : Row)] :=
  C2_recompose_scanid_alignment
    [⟨0, 0, 0, []⟩, ⟨1, 1, 0, []⟩, ⟨2, 2, 5, []⟩] [0] [1] [2]
    [⟨0, 0, 0, []⟩] [⟨1, 1, 1, []⟩] [⟨0, 0, 0, []⟩] [⟨1, 1, 1, []⟩]
    (by rfl)

/-- Mean of one channel's time series (real-valued, for the
normalization utilities whose standard deviation needs a square root). -/
noncomputable def rmean (l : List ℝ) : ℝ := l.sum / (l.length : ℝ)

/-- Standard deviation of one channel's time series
(`array.std('t')`, population convention). -/
noncomputable def rstd (l : List ℝ) : ℝ :=
  Real.sqrt (rmean (l.map (fun x => (x - rmean l) ^ 2)))

/-- A De:code array as seen by `normalize`/`denormalize`: per-channel time
series plus the optional `mean_along_t` / `std_along_t` side coordinates. -/
structure NArray where
  chans : List (List ℝ)
  mean_along_t : Option (List ℝ)
  std_along_t : Option (List ℝ)

/-- utils.py `normalize`: per-channel standardization
`(array - mean) / std`, attaching the channel-wise mean and standard
deviation as side coordinates. -/
noncomputable def normalize (a : NArray) : NArray :=
  { chans := a.chans.map (fun c => c.map (fun x => (x - rmean c) / rstd c)),
    mean_along_t := some (a.chans.map rmean),
    std_along_t := some (a.chans.map rstd) }

/-- utils.py `denormalize`: `array * std + mean` using the stored side
coordinates, which are removed from the result; absent side coordinates
are a lookup failure. -/
noncomputable def denormalize (a : NArray) : Except String NArray :=
  match a.mean_along_t, a.std_along_t with
  | some m, some s =>
      .ok { chans := (a.chans.zip (s.zip m)).map
              (fun p => p.1.map (fun x => x * p.2.1 + p.2.2)),
            mean_along_t := none, std_along_t := none }
  | _, _ => .error "KeyError: mean_along_t / std_along_t"

lemma denorm_norm_chans :
    ∀ chans : List (List ℝ), (∀ c ∈ chans, rstd c ≠ 0) →
      ((chans.map (fun c => c.map (fun x => (x - rmean c) / rstd c))).zip
        ((chans.map rstd).zip (chans.map rmean))).map
          (fun p => p.1.map (fun x => x * p.2.1 + p.2.2)) = chans := by
  intro chans
  induction chans with
  | nil => intro _; rfl
  | cons c cs ih =>
      intro h
      simp only [List.map_cons, List.zip_cons_cons]
      have hs : rstd c ≠ 0 := h c (List.mem_cons_self c cs)
      have hhead : (c.map (fun x => (x - rmean c) / rstd c)).map
          (fun x => x * rstd c + rmean c) = c := by
        rw [List.map_map]
        have : ∀ x ∈ c, ((fun x => x * rstd c + rmean c) ∘
            (fun x => (x - rmean c) / rstd c)) x = id x := by
          intro x _
          simp only [Function.comp_apply, id]
          rw [div_mul_cancel₀ _ hs, sub_add_cancel]
        rw [List.map_congr_left this, List.map_id]
      rw [hhead, ih (fun u hu => h u (List.mem_cons_of_mem c hu))]

/-- C5: for an array whose every channel has at least two samples and a
nonzero standard deviation, `denormalize` after `normalize` reproduces the
array's values exactly, and the attached `mean_along_t` / `std_along_t`
side coordinates are removed again. -/
theorem C5_normalize_denormalize (a : NArray)
    (h : ∀ c ∈ a.chans, 2 ≤ c.length ∧ rstd c ≠ 0) :
    denormalize (normalize a) = .ok ⟨a.chans, none, none⟩ := by
  simp only [normalize, denormalize]
  rw [denorm_norm_chans a.chans (fun c hc => (h c hc).2)]

/-- Concrete instantiation of C5: the single channel [0, 2] (mean 1,
standard deviation 1) round-trips through normalize/denormalize. -/
theorem C5_normalize_denormalize_witness :
    denormalize (normalize ⟨[[0, 2]], none, none⟩) =
      .ok ⟨[[(0 : ℝ), 2]], none, none⟩ :=
  C5_normalize_denormalize ⟨[[0, 2]], none, none⟩ (by
    intro c hc
    rw [List.mem_singleton] at hc
    subst hc
    refine ⟨by norm_num, ?_⟩
    have h1 : rmean [(0 : ℝ), 2] = 1 := by
      norm_num [rmean]
    rw [rstd, h1]
    have h2 : rmean ([(0 : ℝ), 2].map (fun x => (x - 1) ^ 2)) = 1 := by
      norm_num [rmean]
    rw [h2, Real.sqrt_one]
    norm_num)

end Defunc
